import Mathlib

/-!
Verification development for the gap-fill trading bot (`gapfill_bot.py`).

Prices and money amounts are modelled as exact rationals (`ℚ`); Python's
`math.floor` becomes `Int.floor`; the mutable `positions` dict becomes an
explicit `String → ℤ` map threaded through a step function; the network is
modelled as an oracle `Nat → HttpResp` giving the response to each attempt.
-/

/-! ### Resilient request client (`t212_request`, lines 79-100) -/

/-- An HTTP response as seen by `t212_request`: a status code and the
optional `Retry-After` header value. -/
structure HttpResp where
  status : Nat
  retryAfter : Option String
deriving DecidableEq

/-- The transient status set of line 86: `(429, 500, 502, 503, 504)`. -/
def isTransient (s : Nat) : Bool :=
  decide (s = 429) || decide (s = 500) || decide (s = 502) ||
    decide (s = 503) || decide (s = 504)

/-- `requests.Response.raise_for_status` raises `HTTPError` exactly for
client-error (4xx) and server-error (5xx) status codes. -/
def raisesStatus (s : Nat) : Bool := decide (400 ≤ s) && decide (s < 600)

/-- Outcome of one logical `t212_request` call: either the response is
returned, or an `HTTPError` carrying the response is raised; in both cases
we record how many HTTP attempts were issued. -/
inductive ReqResult where
  | ok (attempts : Nat) (resp : HttpResp) : ReqResult
  | raised (attempts : Nat) (resp : HttpResp) : ReqResult
deriving DecidableEq

/-- Number of HTTP attempts issued by the call. -/
def ReqResult.attempts : ReqResult → Nat
  | .ok n _ => n
  | .raised n _ => n

/-- The retry loop of `t212_request` (lines 84-100). `responses i` is the
response the server gives to the zero-based attempt `i`; `attempt` is the
current attempt index and the second argument the remaining loop
iterations (6 at the top call).  A non-transient status exits the loop via
`resp.raise_for_status(); return resp`; on exhaustion the same pair of
statements runs on the last (transient) response. -/
def t212Go (responses : Nat → HttpResp) (attempt : Nat) : Nat → ReqResult
  | 0 =>
    let last := responses (attempt - 1)
    if raisesStatus last.status then .raised attempt last else .ok attempt last
  | remaining + 1 =>
    let resp := responses attempt
    if isTransient resp.status then
      t212Go responses (attempt + 1) remaining
    else if raisesStatus resp.status then .raised (attempt + 1) resp
    else .ok (attempt + 1) resp

/-- `t212_request`, abstracting over the response stream: `for attempt in
range(6)`. -/
def t212Request (responses : Nat → HttpResp) : ReqResult := t212Go responses 0 6

/-- Python `str.isdigit` restricted to ASCII content: non-empty and all
characters are decimal digits.  This is the guard `retry_after and
retry_after.isdigit()` of line 91 (a `None` header is handled separately). -/
def isDigitStr (s : String) : Bool :=
  (!s.data.isEmpty) && s.data.all Char.isDigit

/-- Python `int(s)` on a string of decimal digits (line 92). -/
def strToNat (s : String) : Nat :=
  s.data.foldl (fun a c => a * 10 + (c.toNat - 48)) 0

/-- The backoff computation of lines 90-94: the `Retry-After` hint, when
present and all digits, is used verbatim; otherwise `2 ** attempt +
random.uniform(0, 0.5)`, with the random draw passed in as `jitter`. -/
def backoffDelay (attempt : Nat) (retryAfter : Option String) (jitter : ℚ) : ℚ :=
  match retryAfter with
  | some ra => if isDigitStr ra then (strToNat ra : ℚ) else (2 : ℚ) ^ attempt + jitter
  | none => (2 : ℚ) ^ attempt + jitter

/-- The credential check of `auth_header` (line 75): `assert API_KEY and
API_SECRET` — both must be present and non-empty. -/
def authHeaderOk (apiKey apiSecret : Option String) : Bool :=
  match apiKey, apiSecret with
  | some k, some s => (!k.data.isEmpty) && (!s.data.isEmpty)
  | _, _ => false

/-- Outcome of `t212_request` including the credential assertion, which
runs (line 82) before the retry loop is entered. -/
inductive FullResult where
  | configError : FullResult
  | http (r : ReqResult) : FullResult
deriving DecidableEq

/-- HTTP attempts issued: a configuration error issues none. -/
def FullResult.httpAttempts : FullResult → Nat
  | .configError => 0
  | .http r => r.attempts

/-- `t212_request` with the `auth_header()` call of line 82: the assertion
fires before any HTTP attempt. -/
def t212RequestChecked (apiKey apiSecret : Option String)
    (responses : Nat → HttpResp) : FullResult :=
  if authHeaderOk apiKey apiSecret then .http (t212Go responses 0 6)
  else .configError

/-! ### Signal evaluation and sizing (`make_plan`, lines 194-229) -/

/-- Line 207: `gap_pct = (open_px - prev_close) / prev_close`. -/
def gap_pct (open_px prev_close : ℚ) : ℚ := (open_px - prev_close) / prev_close

/-- The gap filter of line 209: `MAX_GAP <= gap_pct <= MIN_GAP`
(a Python chained comparison, evaluated in this fixed order). -/
def gapAccept (min_gap max_gap g : ℚ) : Bool :=
  decide (max_gap ≤ g) && decide (g ≤ min_gap)

/-- Line 218: `risk_per_share = max(open_px - stop, open_px * 0.002)`. -/
def risk_per_share (open_px stop : ℚ) : ℚ :=
  max (open_px - stop) (open_px * (2 / 1000))

/-- Lines 219-222: `by_risk = floor(max_risk_cap / risk_per_share)`,
`by_budget = floor(budget_each / open_px)`,
`qty = int(max(0, min(by_risk, by_budget)))`. -/
def sizedQty (max_risk_cap budget_each open_px stop : ℚ) : ℤ :=
  max 0 (min ⌊max_risk_cap / risk_per_share open_px stop⌋ ⌊budget_each / open_px⌋)

/-! ### Sell-side order quantities (lines 112-121) -/

/-- Python's `round` to an integer: round-half-to-even. -/
def roundHalfEven (x : ℚ) : ℤ :=
  if x - ⌊x⌋ < 1 / 2 then ⌊x⌋
  else if (1 : ℚ) / 2 < x - ⌊x⌋ then ⌊x⌋ + 1
  else if 2 ∣ ⌊x⌋ then ⌊x⌋ else ⌊x⌋ + 1

/-- Python's `round(x, n)` for `n` decimal places. -/
def pyRound (x : ℚ) (n : Nat) : ℚ := (roundHalfEven (x * 10 ^ n) : ℚ) / 10 ^ n

/-- The quantity field sent by `post_stop_order` (line 113):
`-abs(round(qty_to_sell, 6))`. -/
def stopOrderQty (qty_to_sell : ℚ) : ℚ := -|pyRound qty_to_sell 6|

/-- The quantity field sent by `market_sell_all` (line 119):
`-abs(round(qty, 6))`. -/
def marketSellAllQty (qty : ℚ) : ℚ := -|pyRound qty 6|

/-! ### The day loop (`run_day`, lines 231-302)

The loop over `UNIVERSE` is modelled as a list of per-ticker events.  All
interaction with the outside world during one iteration is captured by the
event: whether `make_plan` produced a plan (and its contents), whether the
market-buy submission succeeded, whether the stop submission succeeded,
and whether the monitoring loop saw the target price and its sell
succeeded.  The mutable `positions` dict and `spent` accumulator are the
state. -/

/-- The fields of a `Plan` that `run_day` uses for ledger and budget
updates (`instrument_code`, `entry`, `qty`); `make_plan` returns `qty ≥ 1`
or no plan at all. -/
structure PlanE where
  code : String
  entry : ℚ
  qty : ℤ
deriving DecidableEq

/-- One iteration of the `for t in UNIVERSE` loop, as seen from the
ledger: the market closed before this ticker (`marketClosed`), `make_plan`
returned `None` (`noPlan`), or a plan was produced with the given
submission/monitoring outcomes. -/
inductive DayEvent where
  | marketClosed : DayEvent
  | noPlan : DayEvent
  | planned (p : PlanE) (buyOk stopOk targetHit sellOk : Bool) : DayEvent
deriving DecidableEq

/-- The mutable session state of `run_day`: `spent` (line 242) and the
global `positions` dict (line 50). -/
structure DayState where
  spent : ℚ
  positions : String → ℤ

/-- A record of one submitted market buy: the instrument code, the ledger
quantity just before the buy, the bought quantity, the entry price, and
`spent` just before the buy. -/
structure BuyRec where
  code : String
  priorQty : ℤ
  qty : ℤ
  entry : ℚ
  spentBefore : ℚ

/-- The ledger right after the buy of line 262: `positions[code] =
positions.get(code, 0) + qty`, adding `q` on top of any existing entry. -/
def entryPosMap (s : DayState) (p : PlanE) (q : ℤ) : String → ℤ :=
  fun k => if k = p.code then s.positions p.code + q else s.positions k

/-- The ledger after a successful buy of `q` shares of `p.code` followed
by the monitoring loop: a monitoring pass that sees the target price with
a positive held quantity and whose market sell does not raise zeroes the
entry (lines 282-288). -/
def buyPos (s : DayState) (p : PlanE) (q : ℤ) (targetHit sellOk : Bool) :
    String → ℤ :=
  if targetHit ∧ sellOk ∧ 0 < entryPosMap s p q p.code then
    fun k => if k = p.code then 0 else entryPosMap s p q k
  else entryPosMap s p q

/-- The scan-buy-monitor loop of `run_day` (lines 243-291), returning the
final state and the list of submitted buys.  Per iteration: break on
market close or on `spent >= TOTAL_BUDGET`; skip when no plan; otherwise
`max_affordable = floor((TOTAL_BUDGET - spent) / plan.entry)` and break
when it is `<= 0`; buy `qty = min(plan.qty, max_affordable)`; on success
update the ledger as in `buyPos` and add `qty * entry` to `spent`.  A
failed buy leaves the state untouched and continues (lines 270-276). -/
def runDayLoop (B : ℚ) (s : DayState) : List DayEvent → DayState × List BuyRec
  | [] => (s, [])
  | DayEvent.marketClosed :: _ => (s, [])
  | DayEvent.noPlan :: rest =>
    if B ≤ s.spent then (s, []) else runDayLoop B s rest
  | DayEvent.planned p buyOk _stopOk targetHit sellOk :: rest =>
    if B ≤ s.spent then (s, [])
    else if ⌊(B - s.spent) / p.entry⌋ ≤ 0 then (s, [])
    else if buyOk then
      let q : ℤ := min p.qty ⌊(B - s.spent) / p.entry⌋
      let res :=
        runDayLoop B ⟨s.spent + (q : ℚ) * p.entry, buyPos s p q targetHit sellOk⟩ rest
      (res.1, ⟨p.code, s.positions p.code, q, p.entry, s.spent⟩ :: res.2)
    else runDayLoop B s rest

/-- An event's plan, when present, has a positive entry price. -/
def eventEntryPos : DayEvent → Prop
  | .planned p _ _ _ _ => 0 < p.entry
  | _ => True

/-- An event's plan, when present, has a positive quantity (`make_plan`
returns `None` when `qty <= 0`, line 223). -/
def eventQtyPos : DayEvent → Prop
  | .planned p _ _ _ _ => 0 < p.qty
  | _ => True

/-- Instrument codes of the planned events, in order. -/
def plannedCodes : List DayEvent → List String
  | [] => []
  | .planned p _ _ _ _ :: rest => p.code :: plannedCodes rest
  | _ :: rest => plannedCodes rest

/-! ### End-of-day liquidation (lines 293-301) -/

/-- One iteration of the EOD loop for key `t`: if the held quantity is
positive, submit a market sell for it (recorded in the order list); the
ledger entry is zeroed only when the sell does not raise. -/
def eodStep (sellOk : String → Bool) (acc : (String → ℤ) × List (String × ℤ))
    (t : String) : (String → ℤ) × List (String × ℤ) :=
  if 0 < acc.1 t then
    if sellOk t then
      ((fun k => if k = t then 0 else acc.1 k), acc.2 ++ [(t, acc.1 t)])
    else (acc.1, acc.2 ++ [(t, acc.1 t)])
  else acc

/-- The EOD cleanup loop `for t, q in list(positions.items())`, returning
the updated ledger and the list of submitted sell orders. -/
def eodClose (sellOk : String → Bool) (keys : List String)
    (pos : String → ℤ) : (String → ℤ) × List (String × ℤ) :=
  keys.foldl (eodStep sellOk) (pos, [])

/-! ### Helper lemmas: retry loop -/

lemma isTransient_raises {s : Nat} (h : isTransient s = true) :
    raisesStatus s = true := by
  simp only [isTransient, Bool.or_eq_true, decide_eq_true_eq] at h
  rcases h with ((((h | h) | h) | h) | h) <;> subst h <;> rfl

lemma t212Go_succ_transient {responses : Nat → HttpResp} {attempt r : Nat}
    (h : isTransient (responses attempt).status = true) :
    t212Go responses attempt (r + 1) = t212Go responses (attempt + 1) r := by
  simp [t212Go, h]

lemma t212Go_succ_stop {responses : Nat → HttpResp} {attempt r : Nat}
    (h : isTransient (responses attempt).status = false) :
    t212Go responses attempt (r + 1) =
      if raisesStatus (responses attempt).status then
        ReqResult.raised (attempt + 1) (responses attempt)
      else ReqResult.ok (attempt + 1) (responses attempt) := by
  simp [t212Go, h]

lemma t212Go_attempts_le (responses : Nat → HttpResp) :
    ∀ (remaining attempt : Nat),
      (t212Go responses attempt remaining).attempts ≤ attempt + remaining := by
  intro remaining
  induction remaining with
  | zero =>
    intro attempt
    simp only [t212Go]
    split <;> simp [ReqResult.attempts]
  | succ r ih =>
    intro attempt
    by_cases h : isTransient (responses attempt).status = true
    · rw [t212Go_succ_transient h]
      calc (t212Go responses (attempt + 1) r).attempts ≤ (attempt + 1) + r :=
            ih (attempt + 1)
        _ = attempt + (r + 1) := by omega
    · rw [t212Go_succ_stop (Bool.not_eq_true _ ▸ h)]
      split <;> simp [ReqResult.attempts]

/-! ### Helper lemmas: day loop -/

lemma entryPosMap_nonneg {s : DayState} {p : PlanE} {q : ℤ}
    (h0 : ∀ k, 0 ≤ s.positions k) (hq : 0 ≤ q) :
    ∀ k, 0 ≤ entryPosMap s p q k := by
  intro k
  unfold entryPosMap
  split
  · exact add_nonneg (h0 p.code) hq
  · exact h0 k

lemma buyPos_nonneg {s : DayState} {p : PlanE} {q : ℤ}
    (targetHit sellOk : Bool) (h0 : ∀ k, 0 ≤ s.positions k) (hq : 0 ≤ q) :
    ∀ k, 0 ≤ buyPos s p q targetHit sellOk k := by
  intro k
  unfold buyPos
  split
  · dsimp only
    split
    · exact le_refl 0
    · exact entryPosMap_nonneg h0 hq k
  · exact entryPosMap_nonneg h0 hq k

lemma buyPos_ne {s : DayState} {p : PlanE} {q : ℤ}
    (targetHit sellOk : Bool) {k : String} (hk : k ≠ p.code) :
    buyPos s p q targetHit sellOk k = s.positions k := by
  unfold buyPos
  split
  · simp [hk, entryPosMap]
  · simp [hk, entryPosMap]

lemma runDayLoop_budget (B : ℚ) (evs : List DayEvent) :
    ∀ s : DayState, s.spent ≤ B → (∀ ev ∈ evs, eventEntryPos ev) →
      (runDayLoop B s evs).1.spent ≤ B
      ∧ (runDayLoop B s evs).1.spent
          = s.spent + ((runDayLoop B s evs).2.map (fun r => (r.qty : ℚ) * r.entry)).sum
      ∧ ∀ r ∈ (runDayLoop B s evs).2, r.qty ≤ ⌊(B - r.spentBefore) / r.entry⌋ := by
  induction evs with
  | nil => intro s hs _; simp [runDayLoop, hs]
  | cons ev rest ih =>
    intro s hs hp
    have hpr : ∀ e ∈ rest, eventEntryPos e :=
      fun e he => hp e (List.mem_cons_of_mem _ he)
    cases ev with
    | marketClosed => simp [runDayLoop, hs]
    | noPlan =>
      by_cases hgb : B ≤ s.spent
      · simp [runDayLoop, hgb, hs]
      · simpa [runDayLoop, hgb] using ih s hs hpr
    | planned p buyOk stopOk targetHit sellOk =>
      have he : 0 < p.entry := hp _ (List.mem_cons_self _ _)
      by_cases hgb : B ≤ s.spent
      · simp [runDayLoop, hgb, hs]
      · by_cases hfl : ⌊(B - s.spent) / p.entry⌋ ≤ 0
        · simp [runDayLoop, hgb, hfl, hs]
        · cases buyOk with
          | false => simpa [runDayLoop, hgb, hfl] using ih s hs hpr
          | true =>
            have hqle : ((min p.qty ⌊(B - s.spent) / p.entry⌋ : ℤ) : ℚ)
                ≤ (B - s.spent) / p.entry := by
              calc ((min p.qty ⌊(B - s.spent) / p.entry⌋ : ℤ) : ℚ)
                  ≤ ((⌊(B - s.spent) / p.entry⌋ : ℤ) : ℚ) := by
                    exact_mod_cast min_le_right _ _
                _ ≤ (B - s.spent) / p.entry := Int.floor_le _
            have hstep : s.spent
                + ((min p.qty ⌊(B - s.spent) / p.entry⌋ : ℤ) : ℚ) * p.entry ≤ B := by
              have h2 : ((min p.qty ⌊(B - s.spent) / p.entry⌋ : ℤ) : ℚ) * p.entry
                  ≤ B - s.spent := (le_div_iff₀ he).mp hqle
              linarith
            obtain ⟨ih1, ih2, ih3⟩ :=
              ih ⟨s.spent + ((min p.qty ⌊(B - s.spent) / p.entry⌋ : ℤ) : ℚ) * p.entry,
                  buyPos s p (min p.qty ⌊(B - s.spent) / p.entry⌋) targetHit sellOk⟩
                hstep hpr
            refine ⟨?_, ?_, ?_⟩
            · simpa [runDayLoop, hgb, hfl] using ih1
            · simp only [runDayLoop, hgb, hfl, if_false, if_true, List.map_cons,
                List.sum_cons]
              simp only [DayState.spent] at ih2
              rw [ih2]
              ring
            · intro r hr
              simp only [runDayLoop, hgb, hfl, if_false, if_true, List.mem_cons] at hr
              rcases hr with rfl | hr
              · exact min_le_right _ _
              · exact ih3 r hr

lemma runDayLoop_nonneg (B : ℚ) (evs : List DayEvent) :
    ∀ s : DayState, (∀ k, 0 ≤ s.positions k) → (∀ ev ∈ evs, eventQtyPos ev) →
      ∀ k, 0 ≤ (runDayLoop B s evs).1.positions k := by
  induction evs with
  | nil => intro s h0 _ k; simpa [runDayLoop] using h0 k
  | cons ev rest ih =>
    intro s h0 hp
    have hpr : ∀ e ∈ rest, eventQtyPos e :=
      fun e he => hp e (List.mem_cons_of_mem _ he)
    cases ev with
    | marketClosed => intro k; simpa [runDayLoop] using h0 k
    | noPlan =>
      by_cases hgb : B ≤ s.spent
      · intro k; simpa [runDayLoop, hgb] using h0 k
      · intro k; simpa [runDayLoop, hgb] using ih s h0 hpr k
    | planned p buyOk stopOk targetHit sellOk =>
      by_cases hgb : B ≤ s.spent
      · intro k; simpa [runDayLoop, hgb] using h0 k
      · by_cases hfl : ⌊(B - s.spent) / p.entry⌋ ≤ 0
        · intro k; simpa [runDayLoop, hgb, hfl] using h0 k
        · cases buyOk with
          | false => intro k; simpa [runDayLoop, hgb, hfl] using ih s h0 hpr k
          | true =>
            have hq : 0 ≤ min p.qty ⌊(B - s.spent) / p.entry⌋ :=
              le_min (hp _ (List.mem_cons_self _ _)).le (lt_of_not_le hfl).le
            intro k
            have hx := ih
                ⟨s.spent + ((min p.qty ⌊(B - s.spent) / p.entry⌋ : ℤ) : ℚ) * p.entry,
                  buyPos s p (min p.qty ⌊(B - s.spent) / p.entry⌋) targetHit sellOk⟩
                (buyPos_nonneg targetHit sellOk h0 hq) hpr k
            simpa [runDayLoop, hgb, hfl] using hx

lemma runDayLoop_no_pyramid (B : ℚ) (evs : List DayEvent) :
    ∀ s : DayState, (plannedCodes evs).Nodup →
      (∀ c ∈ plannedCodes evs, s.positions c = 0) →
      ∀ r ∈ (runDayLoop B s evs).2, r.priorQty = 0 := by
  induction evs with
  | nil => intro s _ _ r hr; simp [runDayLoop] at hr
  | cons ev rest ih =>
    intro s hnd hz
    cases ev with
    | marketClosed => intro r hr; simp [runDayLoop] at hr
    | noPlan =>
      by_cases hgb : B ≤ s.spent
      · intro r hr; simp [runDayLoop, hgb] at hr
      · intro r hr
        rw [show plannedCodes (DayEvent.noPlan :: rest) = plannedCodes rest
            from rfl] at hnd hz
        refine ih s hnd hz r ?_
        simpa [runDayLoop, hgb] using hr
    | planned p buyOk stopOk targetHit sellOk =>
      rw [show plannedCodes (DayEvent.planned p buyOk stopOk targetHit sellOk :: rest)
          = p.code :: plannedCodes rest from rfl] at hnd hz
      have hnd1 : p.code ∉ plannedCodes rest := (List.nodup_cons.mp hnd).1
      have hnd2 : (plannedCodes rest).Nodup := (List.nodup_cons.mp hnd).2
      have hzc : s.positions p.code = 0 := hz p.code (List.mem_cons_self _ _)
      have hzr : ∀ c ∈ plannedCodes rest, s.positions c = 0 :=
        fun c hc => hz c (List.mem_cons_of_mem _ hc)
      by_cases hgb : B ≤ s.spent
      · intro r hr; simp [runDayLoop, hgb] at hr
      · by_cases hfl : ⌊(B - s.spent) / p.entry⌋ ≤ 0
        · intro r hr; simp [runDayLoop, hgb, hfl] at hr
        · cases buyOk with
          | false =>
            intro r hr
            refine ih s hnd2 hzr r ?_
            simpa [runDayLoop, hgb, hfl] using hr
          | true =>
            intro r hr
            have hzr2 : ∀ c ∈ plannedCodes rest,
                (buyPos s p (min p.qty ⌊(B - s.spent) / p.entry⌋) targetHit sellOk) c
                  = 0 := by
              intro c hc
              have hcne : c ≠ p.code := fun hce => hnd1 (hce ▸ hc)
              rw [buyPos_ne targetHit sellOk hcne]
              exact hzr c hc
            have hrec := ih
                ⟨s.spent + ((min p.qty ⌊(B - s.spent) / p.entry⌋ : ℤ) : ℚ) * p.entry,
                  buyPos s p (min p.qty ⌊(B - s.spent) / p.entry⌋) targetHit sellOk⟩
                hnd2 hzr2
            simp only [runDayLoop, hgb, hfl, if_false, if_true, List.mem_cons] at hr
            rcases hr with rfl | hr
            · exact hzc
            · exact hrec r hr

/-! ### Helper lemmas: end-of-day closure -/

lemma eod_foldl_skip (sellOk : String → Bool) :
    ∀ (keys : List String) (acc : (String → ℤ) × List (String × ℤ)),
      (∀ t ∈ keys, acc.1 t ≤ 0) → keys.foldl (eodStep sellOk) acc = acc := by
  intro keys
  induction keys with
  | nil => intro acc _; rfl
  | cons t rest ih =>
    intro acc h
    have ht : acc.1 t ≤ 0 := h t (List.mem_cons_self _ _)
    have hstep : eodStep sellOk acc t = acc := by
      simp [eodStep, not_lt.mpr ht]
    rw [List.foldl_cons, hstep]
    exact ih acc (fun u hu => h u (List.mem_cons_of_mem _ hu))

lemma eod_foldl_pointwise (sellOk : String → Bool) :
    ∀ (keys : List String) (acc : (String → ℤ) × List (String × ℤ)) (k : String),
      (keys.foldl (eodStep sellOk) acc).1 k = acc.1 k
      ∨ (keys.foldl (eodStep sellOk) acc).1 k = 0 := by
  intro keys
  induction keys with
  | nil => intro acc k; left; rfl
  | cons t rest ih =>
    intro acc k
    rw [List.foldl_cons]
    rcases ih (eodStep sellOk acc t) k with h | h
    · rw [h]
      by_cases h1 : 0 < acc.1 t
      · by_cases h2 : sellOk t = true
        · by_cases hk : k = t
          · right; simp [eodStep, h1, h2, hk]
          · left; simp [eodStep, h1, h2, hk]
        · left; simp [eodStep, h1, h2]
      · left; simp [eodStep, h1]
    · right; exact h

lemma eod_after_pass_le (sellOk : String → Bool) :
    ∀ (keys : List String) (acc : (String → ℤ) × List (String × ℤ)),
      (∀ t ∈ keys, sellOk t = true) →
      ∀ t ∈ keys, (keys.foldl (eodStep sellOk) acc).1 t ≤ 0 := by
  intro keys
  induction keys with
  | nil => intro acc _ t ht; cases ht
  | cons u rest ih =>
    intro acc hok t ht
    rw [List.foldl_cons]
    rcases List.mem_cons.mp ht with rfl | htr
    · have hstep : (eodStep sellOk acc t).1 t ≤ 0 := by
        by_cases h1 : 0 < acc.1 t
        · simp [eodStep, h1, hok t (List.mem_cons_self _ _)]
        · simpa [eodStep, h1] using le_of_not_lt h1
      rcases eod_foldl_pointwise sellOk rest (eodStep sellOk acc t) t with h | h
      · rw [h]; exact hstep
      · rw [h]
    · exact ih (eodStep sellOk acc u)
        (fun v hv => hok v (List.mem_cons_of_mem _ hv)) t htr

/-! ### Claim theorems -/

/-- Claim C1: over any sequence of entry purchases in one session run
(starting from `spent = 0`), the cumulative committed spend — the sum of
`quantity * entry price` over all submitted buys — never exceeds the
configured total budget, and by construction every submitted quantity is
capped at `floor((total_budget - spent_so_far) / entry_price)`. -/
theorem budget_invariant (B : ℚ) (pos0 : String → ℤ) (evs : List DayEvent)
    (hB : 0 ≤ B) (hp : ∀ ev ∈ evs, eventEntryPos ev) :
    ((runDayLoop B ⟨0, pos0⟩ evs).2.map (fun r => (r.qty : ℚ) * r.entry)).sum ≤ B
    ∧ (runDayLoop B ⟨0, pos0⟩ evs).1.spent
        = ((runDayLoop B ⟨0, pos0⟩ evs).2.map (fun r => (r.qty : ℚ) * r.entry)).sum
    ∧ ∀ r ∈ (runDayLoop B ⟨0, pos0⟩ evs).2,
        r.qty ≤ ⌊(B - r.spentBefore) / r.entry⌋ := by
  obtain ⟨h1, h2, h3⟩ := runDayLoop_budget B evs ⟨0, pos0⟩ (by simpa using hB) hp
  rw [show (⟨0, pos0⟩ : DayState).spent = 0 from rfl, zero_add] at h2
  exact ⟨h2 ▸ h1, h2, h3⟩

/-- Witness for C1: a concrete one-buy day within budget. -/
theorem budget_invariant_witness :
    (0 : ℚ) ≤ 10
    ∧ (((runDayLoop 10 ⟨0, fun _ => 0⟩
          [DayEvent.planned ⟨"A", 3, 2⟩ true true false false]).2.map
            (fun r => (r.qty : ℚ) * r.entry)).sum ≤ 10
        ∧ (runDayLoop 10 ⟨0, fun _ => 0⟩
            [DayEvent.planned ⟨"A", 3, 2⟩ true true false false]).1.spent
          = (((runDayLoop 10 ⟨0, fun _ => 0⟩
              [DayEvent.planned ⟨"A", 3, 2⟩ true true false false]).2.map
                (fun r => (r.qty : ℚ) * r.entry)).sum)
        ∧ ∀ r ∈ (runDayLoop 10 ⟨0, fun _ => 0⟩
            [DayEvent.planned ⟨"A", 3, 2⟩ true true false false]).2,
            r.qty ≤ ⌊((10 : ℚ) - r.spentBefore) / r.entry⌋) :=
  ⟨by norm_num,
    budget_invariant 10 (fun _ => 0) [DayEvent.planned ⟨"A", 3, 2⟩ true true false false]
      (by norm_num)
      (by intro ev hev; simp only [List.mem_singleton] at hev; subst hev;
          simp [eventEntryPos])⟩

/-- Claim C2, counterexample to order-independence: with the configured
bounds swapped (`MIN_GAP = -3%`, `MAX_GAP = -0.5%`, so the bound named
`MAX_GAP` is the algebraically larger one), a gap of `-1%` — computed from
`prior_close = 100 > 0`, `open_price = 99` — lies inside the closed
interval spanned by the two bounds, yet the evaluator's check
`MAX_GAP <= gap <= MIN_GAP` rejects it.  The acceptance test is therefore
not independent of which configured bound is algebraically smaller. -/
theorem gap_interval_counterexample :
    (0 : ℚ) < 100
    ∧ gap_pct 99 100 = -(1 / 100)
    ∧ min (-(3 / 100) : ℚ) (-(1 / 200)) ≤ gap_pct 99 100
    ∧ gap_pct 99 100 ≤ max (-(3 / 100) : ℚ) (-(1 / 200))
    ∧ gapAccept (-(3 / 100)) (-(1 / 200)) (gap_pct 99 100) = false := by
  norm_num [gap_pct, gapAccept]

/-- Claim C2 (amended): for `prior_close > 0` the gap is exactly
`(open_price - prior_close) / prior_close`, and — provided the bound named
`MAX_GAP` is algebraically at most the bound named `MIN_GAP`, as in the
default configuration — the evaluator accepts iff the gap lies in the
closed interval `[MAX_GAP, MIN_GAP]`, both endpoints inclusive. -/
theorem gap_accept_spec (prev_close open_px min_gap max_gap : ℚ)
    (hp : 0 < prev_close) (hord : max_gap ≤ min_gap) :
    gap_pct open_px prev_close = (open_px - prev_close) / prev_close
    ∧ (gapAccept min_gap max_gap (gap_pct open_px prev_close) = true ↔
        gap_pct open_px prev_close ∈ Set.Icc max_gap min_gap)
    ∧ gapAccept min_gap max_gap max_gap = true
    ∧ gapAccept min_gap max_gap min_gap = true := by
  refine ⟨rfl, ?_, ?_, ?_⟩
  · simp [gapAccept, Set.mem_Icc]
  · simp [gapAccept, hord]
  · simp [gapAccept, hord]

/-- Witness for C2 (amended): Scenario A — `prior_close = 100`,
`open_price = 97`, interval `[-3%, -0.5%]`: the boundary gap `-3%` is
accepted. -/
theorem gap_accept_spec_witness :
    (0 : ℚ) < 100
    ∧ (-(3 / 100) : ℚ) ≤ -(1 / 200)
    ∧ (gap_pct 97 100 = (97 - 100) / 100
        ∧ (gapAccept (-(1 / 200)) (-(3 / 100)) (gap_pct 97 100) = true ↔
            gap_pct 97 100 ∈ Set.Icc (-(3 / 100) : ℚ) (-(1 / 200)))
        ∧ gapAccept (-(1 / 200)) (-(3 / 100)) (-(3 / 100)) = true
        ∧ gapAccept (-(1 / 200)) (-(3 / 100)) (-(1 / 200)) = true)
    ∧ gapAccept (-(1 / 200)) (-(3 / 100)) (gap_pct 97 100) = true :=
  ⟨by norm_num, by norm_num,
    gap_accept_spec 100 97 (-(1 / 200)) (-(3 / 100)) (by norm_num) (by norm_num),
    by norm_num [gapAccept, gap_pct]⟩

/-- Claim C4: `risk_per_share = max(open_price - stop_price,
open_price * 0.002)`, so `risk_per_share ≥ open_price * 0.002` always
holds, and the resulting quantity is the integer
`max(0, min(floor(risk_budget / risk_per_share),
floor(per_instrument_budget / open_price)))`, which is always `≥ 0`. -/
theorem sizer_spec (max_risk_cap budget_each open_px stop : ℚ)
    (h : 0 < open_px) :
    open_px * (2 / 1000) ≤ risk_per_share open_px stop
    ∧ 0 ≤ sizedQty max_risk_cap budget_each open_px stop
    ∧ sizedQty max_risk_cap budget_each open_px stop
        = max 0 (min ⌊max_risk_cap / risk_per_share open_px stop⌋
            ⌊budget_each / open_px⌋) :=
  ⟨le_max_right _ _, le_max_left _ _, rfl⟩

/-- Witness for C4: Scenario C — `open = 50`, `stop = 49.8`,
`risk_budget = 50`, `per_instrument_budget = 1000` gives quantity 20. -/
theorem sizer_spec_witness :
    (0 : ℚ) < 50
    ∧ ((50 : ℚ) * (2 / 1000) ≤ risk_per_share 50 (249 / 5)
        ∧ 0 ≤ sizedQty 50 1000 50 (249 / 5)
        ∧ sizedQty 50 1000 50 (249 / 5)
          = max 0 (min ⌊(50 : ℚ) / risk_per_share 50 (249 / 5)⌋
              ⌊(1000 : ℚ) / 50⌋))
    ∧ sizedQty 50 1000 50 (249 / 5) = 20 :=
  ⟨by norm_num, sizer_spec 50 1000 50 (249 / 5) (by norm_num),
    by norm_num [sizedQty, risk_per_share]⟩

/-- Claim C10: both sell-side submissions compute their quantity as
`-abs(round(qty, 6))`, which is never positive, so a sell can never be
inverted into a buy whatever real quantity the caller passes. -/
theorem sell_qty_nonpositive (qty : ℚ) :
    stopOrderQty qty = -|pyRound qty 6| ∧ stopOrderQty qty ≤ 0
    ∧ marketSellAllQty qty = -|pyRound qty 6| ∧ marketSellAllQty qty ≤ 0 :=
  ⟨rfl, neg_nonpos.mpr (abs_nonneg _), rfl, neg_nonpos.mpr (abs_nonneg _)⟩

/-- Claim C5, counterexample: a non-2xx status outside the transient set
need not be raised — a `304 Not Modified` response is returned as the
result of the call (after a single attempt), because `raise_for_status`
only raises for 4xx/5xx.  The claim that "any non-2xx status outside the
transient set is raised" is therefore false at status 304. -/
theorem retry_claim_counterexample :
    t212Request (fun _ => ⟨304, none⟩) = ReqResult.ok 1 ⟨304, none⟩
    ∧ isTransient 304 = false
    ∧ ¬(200 ≤ 304 ∧ 304 < 300) := by
  refine ⟨?_, by decide, by decide⟩
  rw [t212Request, t212Go_succ_stop (by decide)]
  norm_num [raisesStatus]

/-- Claim C5 (amended): a single logical call issues at most 6 HTTP
attempts; if all 6 attempts draw transient statuses the call raises a
terminal failure carrying the last response; a status in 400..599 outside
the transient set is raised immediately after the first attempt with no
retry; and a status below 400 (or at/above 600) outside the transient set
is returned immediately after the first attempt, likewise with no
retry. -/
theorem retry_bound_spec (responses : Nat → HttpResp) :
    (t212Request responses).attempts ≤ 6
    ∧ ((∀ i, i < 6 → isTransient (responses i).status = true) →
        t212Request responses = ReqResult.raised 6 (responses 5))
    ∧ (isTransient (responses 0).status = false →
        raisesStatus (responses 0).status = true →
        t212Request responses = ReqResult.raised 1 (responses 0))
    ∧ (isTransient (responses 0).status = false →
        raisesStatus (responses 0).status = false →
        t212Request responses = ReqResult.ok 1 (responses 0)) := by
  refine ⟨?_, ?_, ?_, ?_⟩
  · simpa using t212Go_attempts_le responses 6 0
  · intro h
    have h0 := h 0 (by norm_num)
    have h1 := h 1 (by norm_num)
    have h2 := h 2 (by norm_num)
    have h3 := h 3 (by norm_num)
    have h4 := h 4 (by norm_num)
    have h5 := h 5 (by norm_num)
    rw [t212Request, t212Go_succ_transient h0, t212Go_succ_transient h1,
      t212Go_succ_transient h2, t212Go_succ_transient h3,
      t212Go_succ_transient h4, t212Go_succ_transient h5]
    simp [t212Go, isTransient_raises h5]
  · intro hnt hr
    rw [t212Request, t212Go_succ_stop hnt, if_pos hr]
  · intro hnt hr
    rw [t212Request, t212Go_succ_stop hnt, if_neg (by simp [hr])]

/-- Witness for C5 (amended): six straight 500s exhaust the retry budget
and raise with the last response. -/
theorem retry_bound_spec_witness :
    (∀ i, i < 6 → isTransient ((fun _ => (⟨500, none⟩ : HttpResp)) i).status = true)
    ∧ t212Request (fun _ => ⟨500, none⟩) = ReqResult.raised 6 ⟨500, none⟩ :=
  ⟨fun i _ => rfl,
    (retry_bound_spec (fun _ => ⟨500, none⟩)).2.1 (fun i _ => rfl)⟩

/-- Claim C6: on a transient retry, if the `Retry-After` hint is present
and is a digit string, the computed sleep delay equals that hint exactly;
otherwise the delay is `2 ^ attempt` (zero-based attempt index) plus the
random jitter drawn from `[0, 0.5]`. -/
theorem backoff_delay_spec (attempt : Nat) (ra : String) (jitter : ℚ)
    (hj0 : 0 ≤ jitter) (hj1 : jitter ≤ 1 / 2) :
    (isDigitStr ra = true →
      backoffDelay attempt (some ra) jitter = (strToNat ra : ℚ))
    ∧ (isDigitStr ra = false →
        backoffDelay attempt (some ra) jitter = (2 : ℚ) ^ attempt + jitter
        ∧ (2 : ℚ) ^ attempt ≤ backoffDelay attempt (some ra) jitter
        ∧ backoffDelay attempt (some ra) jitter ≤ (2 : ℚ) ^ attempt + 1 / 2)
    ∧ backoffDelay attempt none jitter = (2 : ℚ) ^ attempt + jitter := by
  refine ⟨fun h => by simp [backoffDelay, h], fun h => ?_, by simp [backoffDelay]⟩
  have he : backoffDelay attempt (some ra) jitter = (2 : ℚ) ^ attempt + jitter := by
    simp [backoffDelay, h]
  exact ⟨he, by rw [he]; linarith, by rw [he]; linarith⟩

/-- Witness for C6: attempt 1, hint `"7"`, jitter `1/4` — the hint wins
and the delay is exactly 7. -/
theorem backoff_delay_spec_witness :
    (0 : ℚ) ≤ 1 / 4
    ∧ (1 : ℚ) / 4 ≤ 1 / 2
    ∧ isDigitStr "7" = true
    ∧ backoffDelay 1 (some "7") (1 / 4) = ((strToNat "7" : Nat) : ℚ)
    ∧ backoffDelay 1 (some "7") (1 / 4) = 7 := by
  refine ⟨by norm_num, by norm_num, by decide, ?_, ?_⟩
  · exact (backoff_delay_spec 1 "7" (1 / 4) (by norm_num) (by norm_num)).1 (by decide)
  · have h7 : strToNat "7" = 7 := by decide
    rw [(backoff_delay_spec 1 "7" (1 / 4) (by norm_num) (by norm_num)).1 (by decide),
      h7]
    norm_num

/-- Claim C3, counterexample to "no pyramiding": buying the same
instrument code twice in one session (e.g. a duplicated universe entry, or
two tickers remapped to the same code) stacks the second entry on top of
the still-open first one — after the first buy the ledger holds an open
quantity of 1, and the second buy raises it to 2 instead of leaving a
single entry, because line 262 adds to `positions.get(code, 0)`. -/
theorem ledger_pyramiding_counterexample :
    0 < ((runDayLoop 10 ⟨0, fun _ => 0⟩
        [DayEvent.planned ⟨"A", 1, 1⟩ true true false false]).1.positions "A")
    ∧ ((runDayLoop 10 ⟨0, fun _ => 0⟩
        [DayEvent.planned ⟨"A", 1, 1⟩ true true false false,
         DayEvent.planned ⟨"A", 1, 1⟩ true true false false]).1.positions "A")
      = ((runDayLoop 10 ⟨0, fun _ => 0⟩
          [DayEvent.planned ⟨"A", 1, 1⟩ true true false false]).1.positions "A") + 1
    ∧ ((runDayLoop 10 ⟨0, fun _ => 0⟩
        [DayEvent.planned ⟨"A", 1, 1⟩ true true false false,
         DayEvent.planned ⟨"A", 1, 1⟩ true true false false]).2.map
          BuyRec.priorQty) = [0, 1] := by
  norm_num [runDayLoop, buyPos, entryPosMap]

/-- Claim C3 (amended): every quantity in the Position Ledger stays
non-negative throughout the session; and provided the session starts with
an empty ledger and each instrument code appears in at most one planned
entry, every buy is made with a prior ledger quantity of zero — i.e. no
second entry is ever stacked on an open position.  (Without that proviso
pyramiding is possible, since an entry adds to any existing quantity.) -/
theorem ledger_invariant_amended (B : ℚ) (s : DayState) (evs : List DayEvent)
    (hq : ∀ ev ∈ evs, eventQtyPos ev) (h0 : ∀ k, 0 ≤ s.positions k) :
    (∀ k, 0 ≤ (runDayLoop B s evs).1.positions k)
    ∧ ((plannedCodes evs).Nodup → (∀ c ∈ plannedCodes evs, s.positions c = 0) →
        ∀ r ∈ (runDayLoop B s evs).2, r.priorQty = 0) :=
  ⟨runDayLoop_nonneg B evs s h0 hq,
    fun hnd hz => runDayLoop_no_pyramid B evs s hnd hz⟩

/-- Witness for C3 (amended): a concrete two-instrument day with distinct
codes. -/
theorem ledger_invariant_amended_witness :
    (∀ ev ∈ [DayEvent.planned ⟨"A", 1, 1⟩ true true false false,
        DayEvent.planned ⟨"B", 1, 1⟩ true true false false], eventQtyPos ev)
    ∧ (∀ k : String, 0 ≤ (fun _ : String => (0 : ℤ)) k)
    ∧ ((∀ k, 0 ≤ ((runDayLoop 10 ⟨0, fun _ => 0⟩
          [DayEvent.planned ⟨"A", 1, 1⟩ true true false false,
           DayEvent.planned ⟨"B", 1, 1⟩ true true false false]).1.positions k))
        ∧ ((plannedCodes [DayEvent.planned ⟨"A", 1, 1⟩ true true false false,
              DayEvent.planned ⟨"B", 1, 1⟩ true true false false]).Nodup →
            (∀ c ∈ plannedCodes [DayEvent.planned ⟨"A", 1, 1⟩ true true false false,
                DayEvent.planned ⟨"B", 1, 1⟩ true true false false],
              (⟨0, fun _ => 0⟩ : DayState).positions c = 0) →
            ∀ r ∈ (runDayLoop 10 ⟨0, fun _ => 0⟩
                [DayEvent.planned ⟨"A", 1, 1⟩ true true false false,
                 DayEvent.planned ⟨"B", 1, 1⟩ true true false false]).2,
              r.priorQty = 0)) :=
  ⟨by norm_num [List.forall_mem_cons, eventQtyPos],
    fun _ => le_refl 0,
    ledger_invariant_amended 10 ⟨0, fun _ => 0⟩
      [DayEvent.planned ⟨"A", 1, 1⟩ true true false false,
       DayEvent.planned ⟨"B", 1, 1⟩ true true false false]
      (by norm_num [List.forall_mem_cons, eventQtyPos])
      (fun _ => le_refl 0)⟩

/-- Claim C7: when the market-buy submission raises a terminal failure,
the day's state (Position Ledger entry and spend) is passed on unchanged,
no buy is recorded, no stop order or monitoring happens for the
instrument, and the scan continues with the remaining instruments — the
run on `failed entry :: rest` equals the run on `rest` alone.  The
hypotheses state that the buy was actually attempted (budget not yet
exhausted, affordable quantity positive). -/
theorem entry_failure_no_phantom (B : ℚ) (s : DayState) (p : PlanE)
    (stopOk targetHit sellOk : Bool) (rest : List DayEvent)
    (hgb : ¬ B ≤ s.spent) (hfl : ¬ ⌊(B - s.spent) / p.entry⌋ ≤ 0) :
    runDayLoop B s (DayEvent.planned p false stopOk targetHit sellOk :: rest)
      = runDayLoop B s rest := by
  simp [runDayLoop, hgb, hfl]

/-- Witness for C7: a concrete failed entry with budget available. -/
theorem entry_failure_no_phantom_witness :
    (¬ (10 : ℚ) ≤ (⟨0, fun _ => 0⟩ : DayState).spent)
    ∧ (¬ ⌊((10 : ℚ) - (⟨0, fun _ => 0⟩ : DayState).spent) / (1 : ℚ)⌋ ≤ 0)
    ∧ runDayLoop 10 ⟨0, fun _ => 0⟩
        [DayEvent.planned ⟨"A", 1, 1⟩ false true false false]
      = runDayLoop 10 ⟨0, fun _ => 0⟩ [] :=
  ⟨by norm_num, by norm_num,
    entry_failure_no_phantom 10 ⟨0, fun _ => 0⟩ ⟨"A", 1, 1⟩ true false false []
      (by norm_num) (by norm_num)⟩

/-- Claim C8: the end-of-day closure pass performs no action on
instruments whose ledger quantity is already zero — when every listed
quantity is zero the pass submits no sell order and leaves the ledger
untouched — and therefore, once a pass whose sells all succeed has run,
running the closure pass a second time changes nothing and submits no
orders. -/
theorem eod_idempotent (sellOk : String → Bool) (keys : List String)
    (pos : String → ℤ) :
    ((∀ t ∈ keys, pos t = 0) → eodClose sellOk keys pos = (pos, []))
    ∧ ((∀ t ∈ keys, sellOk t = true) →
        eodClose sellOk keys (eodClose sellOk keys pos).1
          = ((eodClose sellOk keys pos).1, [])) := by
  constructor
  · intro h
    exact eod_foldl_skip sellOk keys (pos, []) (fun t ht => le_of_eq (h t ht))
  · intro h
    exact eod_foldl_skip sellOk keys ((eodClose sellOk keys pos).1, [])
      (fun t ht => eod_after_pass_le sellOk keys (pos, []) h t ht)

/-- Witness for C8: a zeroed single-instrument ledger is left untouched,
with no sell order submitted. -/
theorem eod_idempotent_witness :
    (∀ t ∈ (["A"] : List String), (fun _ : String => (0 : ℤ)) t = 0)
    ∧ eodClose (fun _ => true) ["A"] (fun _ => 0) = ((fun _ => 0), []) :=
  ⟨fun t _ => rfl,
    (eod_idempotent (fun _ => true) ["A"] (fun _ => 0)).1 (fun t _ => rfl)⟩

/-- Claim C9: if either credential of the brokerage credential pair is
absent, the call fails with the configuration error of `auth_header`
before any HTTP attempt is issued — whatever the network would have
answered, zero attempts are made, so the error is never subject to the
retry loop. -/
theorem config_error_fail_fast (apiKey apiSecret : Option String)
    (responses : Nat → HttpResp) (h : apiKey = none ∨ apiSecret = none) :
    t212RequestChecked apiKey apiSecret responses = FullResult.configError
    ∧ (t212RequestChecked apiKey apiSecret responses).httpAttempts = 0 := by
  have hok : authHeaderOk apiKey apiSecret = false := by
    rcases h with h | h
    · subst h; rfl
    · subst h; cases apiKey <;> rfl
  constructor
  · simp [t212RequestChecked, hok]
  · simp [t212RequestChecked, hok, FullResult.httpAttempts]

/-- Witness for C9: a missing API key aborts with zero HTTP attempts even
against a server that would answer 200. -/
theorem config_error_fail_fast_witness :
    ((none : Option String) = none ∨ (some "secret" : Option String) = none)
    ∧ (t212RequestChecked none (some "secret") (fun _ => ⟨200, none⟩)
        = FullResult.configError
      ∧ (t212RequestChecked none (some "secret")
          (fun _ => ⟨200, none⟩)).httpAttempts = 0) :=
  ⟨Or.inl rfl,
    config_error_fail_fast none (some "secret") (fun _ => ⟨200, none⟩) (Or.inl rfl)⟩
